import Mathlib

/-!
Shallow embedding of the `marble_octomap_merger` core
(`build_diff_tree`, `merge_maps`, and `OctomapMerger::merge`).

Modelling conventions, fixed by the spec's data model (§3) and the
capability contract of the external spatial-indexing collaborator:

* A spatial tree is represented by its leaf-observable content: a finite
  association list from discretized node keys to occupancy values.  The
  spec's tree invariant ("within one tree, keys are unique"; "pruning may
  replace a fully homogeneous subtree with a single coarser node but must
  never change the occupancy value observed at any leaf query") makes this
  list, together with one structural bit recording whether the tree is in
  fully-expanded form, the observable state of a tree.  `expand` preserves
  the leaf map and sets the bit; `prune` preserves the leaf map and clears
  the bit.
* Keys are abstract (`Nat`); occupancy values are the stored log-odds
  scalars (`Int`).  `getOccupancy()` is a strictly monotone injective
  transform of the stored log-odds, so the source's occupancy comparison
  `nodeIn1->getOccupancy() != it->getOccupancy()` is value inequality of
  the stored scalars, and `it->getLogOdds()` is the stored scalar itself.
* A stamped tree (`OcTreeStamped`) additionally carries the per-node
  timestamp used as the provenance flag (`0` unclaimed / `1` claimed);
  the source's `setNodeValue` followed by `setTimestamp` is one node
  write.
* C++ functions that mutate arguments through pointers are embedded as
  functions returning the post-call state of every argument they touch.
* A null-pointer dereference (passing a failed-decode `NULL` tree to
  `build_diff_tree` or `merge_maps`) is undefined behavior that kills the
  cycle; it is embedded as `Except.error` carrying the state as mutated
  up to the crash point.
-/

namespace OctomapMerger

/-- A discretized 3D node key (`octomap::OcTreeKey`), abstracted. -/
abbrev Key := Nat

/-- An occupancy value: the stored log-odds scalar, abstracted. -/
abbrev LogOdds := Int

/-- Leaf-observable content of an `octomap::OcTree` together with the
structural bit recording whether the tree is currently fully expanded.
`leaves` maps each leaf-queryable key to its occupancy value. -/
structure OcTree where
  leaves : List (Key × LogOdds)
  expanded : Bool
deriving Repr, DecidableEq

/-- Leaf-observable content of an `octomap::OcTreeStamped`: each node
carries its occupancy value and its timestamp/provenance flag. -/
structure OcTreeStamped where
  leaves : List (Key × LogOdds × Nat)
deriving Repr, DecidableEq

/-- `tree->search(key)` on a plain tree: look the key up. -/
def otSearch : List (Key × LogOdds) → Key → Option LogOdds
  | [], _ => none
  | (k', v) :: rest, k => if k' = k then some v else otSearch rest k

/-- `tree->setNodeValue(key, value)` on a plain tree: write the value at
the key, creating the node if absent; all other keys keep their value. -/
def otSet : List (Key × LogOdds) → Key → LogOdds → List (Key × LogOdds)
  | [], k, v => [(k, v)]
  | (k', v') :: rest, k, v =>
    if k' = k then (k, v) :: rest else (k', v') :: otSet rest k v

/-- `tree->search(key)` on a stamped tree: value and timestamp. -/
def stSearch : List (Key × LogOdds × Nat) → Key → Option (LogOdds × Nat)
  | [], _ => none
  | (k', v, t) :: rest, k => if k' = k then some (v, t) else stSearch rest k

/-- `tree->setNodeValue(key, value)` followed by `setTimestamp(ts)` on the
written node of a stamped tree. -/
def stSet : List (Key × LogOdds × Nat) → Key → LogOdds → Nat →
    List (Key × LogOdds × Nat)
  | [], k, v, t => [(k, v, t)]
  | (k', v', t') :: rest, k, v, t =>
    if k' = k then (k, v, t) :: rest else (k', v', t') :: stSet rest k v t

/-- `tree->expand()`: fully expand the tree.  Leaf-observable values are
unchanged (capability contract); the structural bit becomes set. -/
def expand (t : OcTree) : OcTree := { leaves := t.leaves, expanded := true }

/-- `tree->prune()`: collapse homogeneous subtrees.  Leaf-observable
values are unchanged (capability contract); the structural bit clears. -/
def pruneOt (t : OcTree) : OcTree := { leaves := t.leaves, expanded := false }

/-- A freshly `clear()`ed (or newly constructed) empty tree. -/
def emptyOt : OcTree := { leaves := [], expanded := false }

/-- Post-call state of the three trees passed to `build_diff_tree`, plus
its return value `num_new_nodes`. -/
structure DiffResult where
  tree1 : OcTree
  tree2 : OcTree
  tree_diff : OcTree
  num_new_nodes : Nat
deriving Repr, DecidableEq

/-- One iteration of the leaf loop of `build_diff_tree`: `acc` is the
current (diff-tree leaves, `num_new_nodes`) pair, `kv` the leaf of
`tree2` under the iterator.  If the key exists in `tree1` with a
different occupancy, write it to the diff tree; if it does not exist in
`tree1`, write it and count it as new. -/
def diffStep (tree1 : List (Key × LogOdds)) (acc : List (Key × LogOdds) × Nat)
    (kv : Key × LogOdds) : List (Key × LogOdds) × Nat :=
  match otSearch tree1 kv.1 with
  | some v1 => if v1 ≠ kv.2 then (otSet acc.1 kv.1 kv.2, acc.2) else acc
  | none => (otSet acc.1 kv.1 kv.2, acc.2 + 1)

/-- `build_diff_tree(tree1, tree2, tree_diff)`: expand `tree2`, then for
every leaf of `tree2` record into `tree_diff` the leaves that are absent
from `tree1` (counting them) or carry a different occupancy value in
`tree1`.  `tree1` is only read; `tree2` is left in its expanded state. -/
def build_diff_tree (tree1 tree2 tree_diff : OcTree) : DiffResult :=
  let t2e := expand tree2
  let r := t2e.leaves.foldl (diffStep tree1.leaves) (tree_diff.leaves, 0)
  { tree1 := tree1
    tree2 := t2e
    tree_diff := { leaves := r.1, expanded := tree_diff.expanded }
    num_new_nodes := r.2 }

/-- One iteration of the leaf loop of `merge_maps` over destination
leaves `tree1`: the timestamp written is `1` when `replace` else `0`; an
existing destination node is rewritten iff
`replace || (overwrite && timestamp == 0)`; an absent node is created. -/
def mergeNode (tree1 : List (Key × LogOdds × Nat)) (replace overwrite : Bool)
    (kv : Key × LogOdds) : List (Key × LogOdds × Nat) :=
  let ts : Nat := if replace then 1 else 0
  match stSearch tree1 kv.1 with
  | some (_, ts1) =>
    if replace || (overwrite && (ts1 == 0)) then stSet tree1 kv.1 kv.2 ts
    else tree1
  | none => stSet tree1 kv.1 kv.2 ts

/-- Post-call state of the two trees passed to `merge_maps`. -/
structure MergeResult where
  tree1 : OcTreeStamped
  tree2 : OcTree
deriving Repr, DecidableEq

/-- `merge_maps(tree1, tree2, replace, overwrite)`: expand `tree2`, then
fold every leaf of `tree2` into `tree1` under the policy given by the two
flags.  `tree2` is left in its expanded state. -/
def merge_maps (tree1 : OcTreeStamped) (tree2 : OcTree)
    (replace overwrite : Bool) : MergeResult :=
  let t2e := expand tree2
  { tree1 := ⟨t2e.leaves.foldl (fun acc kv => mergeNode acc replace overwrite kv)
      tree1.leaves⟩
    tree2 := t2e }

/-- `v.foldl max 0` / `*std::max_element` of the ledger vector.  The
source only evaluates it on a nonempty vector (the current sequence was
just pushed), where the `0` base is neutral. -/
def listMax : List Nat → Nat
  | [] => 0
  | x :: xs => max x (listMax xs)

/-- One already-published diff as stored in the outbound `OctomapArray`:
its `header.seq` and the (pruned) diff tree it encodes. -/
structure DiffMsg where
  seq : Nat
  tree : OcTree
deriving Repr, DecidableEq

/-- One `octomap_msgs::Octomap` entry of a neighbor's batch: its
`header.seq` and the result of decoding it (`binaryMsgToMap` /
`fullMsgToMap` return `NULL` on failure, embedded as `none`). -/
structure NeighborDiff where
  seq : Nat
  payload : Option OcTree
deriving Repr, DecidableEq

/-- One entry of the `OctomapNeighbors` message: the owner identifier and
its ordered list of diff messages. -/
structure Neighbor where
  owner : String
  octomaps : List NeighborDiff
deriving Repr, DecidableEq

/-- `seqs[nid]` read access on `std::map<std::string, std::vector<int>>`:
a missing key reads as the default-constructed empty vector. -/
def ledgerGet : List (String × List Nat) → String → List Nat
  | [], _ => []
  | (n, s) :: rest, nid => if n = nid then s else ledgerGet rest nid

/-- `seqs[nid] = v` write access: overwrite the entry, creating it on
first contact with the neighbor identifier. -/
def ledgerSet : List (String × List Nat) → String → List Nat →
    List (String × List Nat)
  | [], nid, v => [(nid, v)]
  | (n, s) :: rest, nid, v =>
    if n = nid then (nid, v) :: rest else (n, s) :: ledgerSet rest nid v

/-- The persistent per-agent state mutated by `OctomapMerger::merge`:
the merged stamped map, the own-map baseline `tree_old`, the published
diff counter `num_diffs`, the outbound `mapdiffs` array, and the
per-neighbor applied-sequence ledger `seqs`.  (`tree_diff` is cleared at
the end of every cycle and starts empty, so it is modelled as a local of
the cycle; `tree_sys`/`tree_temp` are per-cycle decode holders.) -/
structure MergerState where
  tree_merged : OcTreeStamped
  tree_old : OcTree
  num_diffs : Nat
  mapdiffs : List DiffMsg
  seqs : List (String × List Nat)
deriving Repr, DecidableEq

/-- The body of the inner neighbor loop of `OctomapMerger::merge` for one
diff message `d` of neighbor `nid`: skip it if its sequence is already in
the ledger; otherwise push the sequence, decode the message, choose
`overwrite_node` by comparing the sequence against the ledger maximum
(evaluated after the push, as the source does), and merge with
`replace=false`.  A failed decode hands the `NULL` tree to
`merge_maps`, which dereferences it: undefined behavior that kills the
cycle, embedded as `Except.error` carrying the state at the crash
point (the sequence already pushed, the merged map untouched). -/
def processNeighborDiff (st : MergerState) (nid : String) (d : NeighborDiff) :
    Except MergerState MergerState :=
  let recorded := ledgerGet st.seqs nid
  if d.seq ∈ recorded then .ok st
  else
    let recorded' := recorded ++ [d.seq]
    let st' := { st with seqs := ledgerSet st.seqs nid recorded' }
    match d.payload with
    | none => .error st'
    | some t =>
      let overwrite_node : Bool := decide (listMax recorded' ≤ d.seq)
      .ok { st' with
        tree_merged := (merge_maps st'.tree_merged t false overwrite_node).tree1 }

/-- The inner `for j` loop over one neighbor's `octomaps`. -/
def processNeighborDiffs (nid : String) :
    MergerState → List NeighborDiff → Except MergerState MergerState
  | st, [] => .ok st
  | st, d :: ds =>
    match processNeighborDiff st nid d with
    | .ok st' => processNeighborDiffs nid st' ds
    | .error e => .error e

/-- The outer `for i` loop over all neighbors. -/
def processNeighbors :
    MergerState → List Neighbor → Except MergerState MergerState
  | st, [] => .ok st
  | st, n :: ns =>
    match processNeighborDiffs n.owner st n.octomaps with
    | .ok st' => processNeighbors st' ns
    | .error e => .error e

/-- What one cycle publishes: the re-published full `mapdiffs` array and
`num_diffs` counter (only on a significant own-map diff), and the pruned
merged map (always, when the cycle completes). -/
structure Publications where
  mapdiffs : Option (List DiffMsg)
  num_diffs : Option Nat
  merged : Option OcTreeStamped
deriving Repr, DecidableEq

/-- `OctomapMerger::merge()`, one full cycle.  `myMapDecoded` is the
result of decoding the latest own-map message (`none` on decode failure).
On decode failure a `type == "robot"` agent returns early with nothing
published; any other agent falls through and `build_diff_tree`
dereferences the `NULL` tree (undefined behavior, `Except.error`).
Otherwise: diff the decoded map against `tree_old` into the (empty)
`tree_diff`; if `num_nodes > map_thresh`, swap the baseline, merge the
diff authoritatively (`replace=true`), prune and append the diff with
`header.seq = num_diffs - 1` after incrementing `num_diffs`, and publish
the array and the counter; then process every neighbor's batch; finally
prune and publish the merged map.  (The `type == "base"` point-cloud
projection only reads the merged map and is out of the modelled core.) -/
def merge (type : String) (map_thresh : Int) (st : MergerState)
    (myMapDecoded : Option OcTree) (neighbors : List Neighbor) :
    Except MergerState (MergerState × Publications) :=
  match myMapDecoded with
  | none =>
    if type = "robot" then .ok (st, ⟨none, none, none⟩)
    else .error st
  | some tree_sys =>
    let dr := build_diff_tree st.tree_old tree_sys emptyOt
    let step :=
      if (dr.num_new_nodes : Int) > map_thresh then
        let mr := merge_maps st.tree_merged dr.tree_diff true false
        let nd := st.num_diffs + 1
        let mapdiffs' := st.mapdiffs ++ [⟨nd - 1, pruneOt mr.tree2⟩]
        ({ st with
            tree_old := dr.tree2
            tree_merged := mr.tree1
            num_diffs := nd
            mapdiffs := mapdiffs' },
          some mapdiffs', some nd)
      else (st, none, none)
    match processNeighbors step.1 neighbors with
    | .ok st2 => .ok (st2, ⟨step.2.1, step.2.2, some st2.tree_merged⟩)
    | .error e => .error e

/-! ## Association-list lemmas -/

theorem otSearch_otSet_self (l : List (Key × LogOdds)) (k : Key) (v : LogOdds) :
    otSearch (otSet l k v) k = some v := by
  induction l with
  | nil => simp [otSet, otSearch]
  | cons hd tl ih =>
    obtain ⟨k', v'⟩ := hd
    by_cases h : k' = k
    · simp [otSet, otSearch, h]
    · simp [otSet, otSearch, h, ih]

theorem otSearch_otSet_ne (l : List (Key × LogOdds)) (k' k : Key) (v : LogOdds)
    (h : k' ≠ k) : otSearch (otSet l k' v) k = otSearch l k := by
  induction l with
  | nil => simp [otSet, otSearch, h]
  | cons hd tl ih =>
    obtain ⟨k0, v0⟩ := hd
    by_cases h0 : k0 = k'
    · simp [otSet, otSearch, h0, h]
    · by_cases h1 : k0 = k <;> simp [otSet, otSearch, h0, h1, ih, Ne.symm h]

theorem stSearch_stSet_self (l : List (Key × LogOdds × Nat)) (k : Key)
    (v : LogOdds) (t : Nat) : stSearch (stSet l k v t) k = some (v, t) := by
  induction l with
  | nil => simp [stSet, stSearch]
  | cons hd tl ih =>
    obtain ⟨k', v', t'⟩ := hd
    by_cases h : k' = k
    · simp [stSet, stSearch, h]
    · simp [stSet, stSearch, h, ih]

theorem stSearch_stSet_ne (l : List (Key × LogOdds × Nat)) (k' k : Key)
    (v : LogOdds) (t : Nat) (h : k' ≠ k) :
    stSearch (stSet l k' v t) k = stSearch l k := by
  induction l with
  | nil => simp [stSet, stSearch, h]
  | cons hd tl ih =>
    obtain ⟨k0, v0, t0⟩ := hd
    by_cases h0 : k0 = k'
    · simp [stSet, stSearch, h0, h]
    · by_cases h1 : k0 = k <;> simp [stSet, stSearch, h0, h1, ih, Ne.symm h]

theorem otSearch_eq_none (l : List (Key × LogOdds)) (k : Key)
    (h : k ∉ l.map Prod.fst) : otSearch l k = none := by
  induction l with
  | nil => rfl
  | cons hd tl ih =>
    obtain ⟨k', v'⟩ := hd
    simp only [List.map_cons, List.mem_cons, not_or] at h
    have hne : k' ≠ k := fun hh => h.1 hh.symm
    simp [otSearch, hne, ih h.2]

theorem otSearch_of_mem (l : List (Key × LogOdds)) (k : Key) (v : LogOdds)
    (hN : (l.map Prod.fst).Nodup) (h : (k, v) ∈ l) : otSearch l k = some v := by
  induction l with
  | nil => simp at h
  | cons hd tl ih =>
    obtain ⟨k', v'⟩ := hd
    simp only [List.map_cons, List.nodup_cons] at hN
    rcases List.mem_cons.mp h with heq | hmem
    · have h1 : k = k' := congrArg Prod.fst heq
      have h2 : v = v' := congrArg Prod.snd heq
      subst h1
      subst h2
      simp [otSearch]
    · have hne : k' ≠ k := by
        intro hh
        subst hh
        exact hN.1 (List.mem_map.mpr ⟨(k', v), hmem, rfl⟩)
      simp [otSearch, hne, ih hN.2 hmem]

/-! ## `merge_maps` characterization -/

theorem stSearch_mergeNode_self (t1 : List (Key × LogOdds × Nat))
    (r o : Bool) (kv : Key × LogOdds) :
    stSearch (mergeNode t1 r o kv) kv.1 =
      match stSearch t1 kv.1 with
      | none => some (kv.2, if r then 1 else 0)
      | some (v, t) =>
        if r || (o && (t == 0)) then some (kv.2, if r then 1 else 0)
        else some (v, t) := by
  unfold mergeNode
  cases h : stSearch t1 kv.1 with
  | none => simp [stSearch_stSet_self]
  | some p =>
    obtain ⟨v, t⟩ := p
    by_cases hc : (r || (o && (t == 0))) = true
    · simp [hc, stSearch_stSet_self]
    · simp only [Bool.not_eq_true] at hc
      simp [hc, h]

theorem stSearch_mergeNode_ne (t1 : List (Key × LogOdds × Nat))
    (r o : Bool) (kv : Key × LogOdds) (k : Key) (h : kv.1 ≠ k) :
    stSearch (mergeNode t1 r o kv) k = stSearch t1 k := by
  unfold mergeNode
  cases hs : stSearch t1 kv.1 with
  | none => simp [stSearch_stSet_ne _ _ _ _ _ h]
  | some p =>
    obtain ⟨v, t⟩ := p
    by_cases hc : (r || (o && (t == 0))) = true
    · simp [hc, stSearch_stSet_ne _ _ _ _ _ h]
    · simp only [Bool.not_eq_true] at hc
      simp [hc]

/-- Pointwise characterization of the destination after the `merge_maps`
leaf loop: a key absent from the source is untouched; a key present in
the source with value `w` is written (value `w`, timestamp `1` iff
`replace`) when the destination has no node there or the policy condition
`replace || (overwrite && timestamp == 0)` holds, and untouched
otherwise. -/
theorem merge_fold_search (r o : Bool) (L : List (Key × LogOdds))
    (hN : (L.map Prod.fst).Nodup) (d : List (Key × LogOdds × Nat)) (k : Key) :
    stSearch (L.foldl (fun acc kv => mergeNode acc r o kv) d) k =
      match otSearch L k with
      | none => stSearch d k
      | some w =>
        match stSearch d k with
        | none => some (w, if r then 1 else 0)
        | some (v, t) =>
          if r || (o && (t == 0)) then some (w, if r then 1 else 0)
          else some (v, t) := by
  induction L generalizing d with
  | nil => simp [otSearch]
  | cons hd tl ih =>
    obtain ⟨k0, w0⟩ := hd
    simp only [List.map_cons, List.nodup_cons] at hN
    rw [List.foldl_cons, ih hN.2]
    by_cases hk : k0 = k
    · subst hk
      rw [otSearch_eq_none tl k0 hN.1]
      have := stSearch_mergeNode_self d r o (k0, w0)
      simp only [otSearch, if_pos rfl]
      exact this
    · rw [stSearch_mergeNode_ne d r o (k0, w0) k hk]
      simp [otSearch, hk]

theorem stSearch_mergeNode_isSome (t1 : List (Key × LogOdds × Nat))
    (r o : Bool) (kv : Key × LogOdds) (k : Key)
    (h : (stSearch t1 k).isSome) :
    (stSearch (mergeNode t1 r o kv) k).isSome := by
  by_cases hk : kv.1 = k
  · subst hk
    unfold mergeNode
    cases hs : stSearch t1 kv.1 with
    | none => simp [stSearch_stSet_self]
    | some p =>
      obtain ⟨v, t⟩ := p
      by_cases hc : (r || (o && (t == 0))) = true
      · simp [hc, stSearch_stSet_self]
      · simp only [Bool.not_eq_true] at hc
        simp [hc, h]
  · rw [stSearch_mergeNode_ne t1 r o kv k hk]
    exact h

theorem merge_fold_isSome (r o : Bool) (L : List (Key × LogOdds))
    (d : List (Key × LogOdds × Nat)) (k : Key)
    (h : (stSearch d k).isSome) :
    (stSearch (L.foldl (fun acc kv => mergeNode acc r o kv) d) k).isSome := by
  induction L generalizing d with
  | nil => exact h
  | cons hd tl ih =>
    rw [List.foldl_cons]
    exact ih _ (stSearch_mergeNode_isSome d r o hd k h)

/-! ## `build_diff_tree` characterization -/

theorem diff_fold_count (t1 L : List (Key × LogOdds))
    (td : List (Key × LogOdds)) (c : Nat) :
    (L.foldl (diffStep t1) (td, c)).2 =
      c + (L.filter (fun kv => (otSearch t1 kv.1).isNone)).length := by
  induction L generalizing td c with
  | nil => simp
  | cons hd tl ih =>
    rw [List.foldl_cons]
    cases h : otSearch t1 hd.1 with
    | some v1 =>
      by_cases hv : v1 ≠ hd.2
      · have hstep : diffStep t1 (td, c) hd = (otSet td hd.1 hd.2, c) := by
          unfold diffStep
          rw [h]
          simp [hv]
        rw [hstep, ih, List.filter_cons]
        simp [h]
      · have hstep : diffStep t1 (td, c) hd = (td, c) := by
          unfold diffStep
          rw [h]
          simp [hv]
        rw [hstep, ih, List.filter_cons]
        simp [h]
    | none =>
      have hstep : diffStep t1 (td, c) hd = (otSet td hd.1 hd.2, c + 1) := by
        unfold diffStep
        rw [h]
      rw [hstep, ih, List.filter_cons]
      simp [h]
      omega

theorem diff_fold_search (t1 L : List (Key × LogOdds))
    (hN : (L.map Prod.fst).Nodup) (td : List (Key × LogOdds)) (c : Nat)
    (k : Key) :
    otSearch (L.foldl (diffStep t1) (td, c)).1 k =
      match otSearch L k with
      | some v => if otSearch t1 k = some v then otSearch td k else some v
      | none => otSearch td k := by
  induction L generalizing td c with
  | nil => simp [otSearch]
  | cons hd tl ih =>
    obtain ⟨k0, v0⟩ := hd
    simp only [List.map_cons, List.nodup_cons] at hN
    rw [List.foldl_cons]
    cases h1 : otSearch t1 k0 with
    | some v1 =>
      by_cases hv : v1 ≠ v0
      · have hstep : diffStep t1 (td, c) (k0, v0) = (otSet td k0 v0, c) := by
          unfold diffStep
          rw [h1]
          simp [hv]
        rw [hstep, ih hN.2]
        by_cases hk : k0 = k
        · subst hk
          rw [otSearch_eq_none tl k0 hN.1]
          have hne : otSearch t1 k0 ≠ some v0 := by
            rw [h1]
            simpa using hv
          simp [otSearch, hne, otSearch_otSet_self]
        · simp [otSearch, hk, otSearch_otSet_ne td k0 k v0 hk]
      · simp only [Ne, not_not] at hv
        subst hv
        have hstep : diffStep t1 (td, c) (k0, v1) = (td, c) := by
          unfold diffStep
          rw [h1]
          simp
        rw [hstep, ih hN.2]
        by_cases hk : k0 = k
        · subst hk
          rw [otSearch_eq_none tl k0 hN.1]
          simp [otSearch, h1]
        · simp [otSearch, hk]
    | none =>
      have hstep : diffStep t1 (td, c) (k0, v0) = (otSet td k0 v0, c + 1) := by
        unfold diffStep
        rw [h1]
      rw [hstep, ih hN.2]
      by_cases hk : k0 = k
      · subst hk
        rw [otSearch_eq_none tl k0 hN.1]
        have hne : otSearch t1 k0 ≠ some v0 := by
          rw [h1]
          simp
        simp [otSearch, hne, otSearch_otSet_self]
      · simp [otSearch, hk, otSearch_otSet_ne td k0 k v0 hk]

/-- When every leaf of `L` is present with an equal value in `tree1`, the
diff loop writes nothing: starting from an empty diff tree it stays
empty and counts nothing. -/
theorem diff_fold_id (t1 : List (Key × LogOdds)) (L : List (Key × LogOdds))
    (h : ∀ kv ∈ L, otSearch t1 kv.1 = some kv.2) (c : Nat) :
    L.foldl (diffStep t1) ([], c) = ([], c) := by
  induction L with
  | nil => rfl
  | cons hd tl ih =>
    rw [List.foldl_cons]
    have h1 := h hd (List.mem_cons_self _ _)
    unfold diffStep
    rw [h1]
    simp only [ne_eq, not_true_eq_false, if_false]
    exact ih fun kv hkv => h kv (List.mem_cons_of_mem _ hkv)

/-! ## Sequence-ledger and orchestrator lemmas -/

theorem listMax_append_singleton (l : List Nat) (x : Nat) :
    listMax (l ++ [x]) = max (listMax l) x := by
  induction l with
  | nil => simp [listMax]
  | cons hd tl ih =>
    show max hd (listMax (tl ++ [x])) = max (max hd (listMax tl)) x
    rw [ih]
    exact (Nat.max_assoc hd (listMax tl) x).symm

theorem listMax_le_iff (l : List Nat) (x : Nat) :
    listMax l ≤ x ↔ ∀ s ∈ l, s ≤ x := by
  induction l with
  | nil => simp [listMax]
  | cons hd tl ih => simp [listMax, Nat.max_le, ih]

/-- The source evaluates `cur_seq >= *max_element(seqs[nid])` after
pushing `cur_seq`; this equals the spec's condition "`seq` is at least
every sequence recorded before the push" (vacuously true on first
contact). -/
theorem overwrite_flag_eq (l : List Nat) (x : Nat) :
    decide (listMax (l ++ [x]) ≤ x) = decide (∀ s ∈ l, s ≤ x) := by
  refine decide_eq_decide.mpr ?_
  rw [listMax_append_singleton, Nat.max_le, listMax_le_iff]
  simp

theorem ledgerGet_ledgerSet_self (l : List (String × List Nat)) (n : String)
    (v : List Nat) : ledgerGet (ledgerSet l n v) n = v := by
  induction l with
  | nil => simp [ledgerSet, ledgerGet]
  | cons hd tl ih =>
    obtain ⟨n', s'⟩ := hd
    by_cases h : n' = n
    · simp [ledgerSet, ledgerGet, h]
    · simp [ledgerSet, ledgerGet, h, ih]

theorem processNeighborDiff_mem (st : MergerState) (nid : String)
    (d : NeighborDiff) (h : d.seq ∈ ledgerGet st.seqs nid) :
    processNeighborDiff st nid d = .ok st := by
  unfold processNeighborDiff
  simp [h]

theorem processNeighborDiff_new (st : MergerState) (nid : String)
    (d : NeighborDiff) (t : OcTree) (h : d.seq ∉ ledgerGet st.seqs nid)
    (hp : d.payload = some t) :
    processNeighborDiff st nid d = .ok { st with
      seqs := ledgerSet st.seqs nid (ledgerGet st.seqs nid ++ [d.seq])
      tree_merged := (merge_maps st.tree_merged t false
        (decide (listMax (ledgerGet st.seqs nid ++ [d.seq]) ≤ d.seq))).tree1 } := by
  unfold processNeighborDiff
  simp [h, hp]

theorem processNeighborDiff_fail (st : MergerState) (nid : String)
    (d : NeighborDiff) (h : d.seq ∉ ledgerGet st.seqs nid)
    (hp : d.payload = none) :
    processNeighborDiff st nid d = .error { st with
      seqs := ledgerSet st.seqs nid (ledgerGet st.seqs nid ++ [d.seq]) } := by
  unfold processNeighborDiff
  simp [h, hp]

theorem processNeighborDiff_frame (st : MergerState) (nid : String)
    (d : NeighborDiff) (st' : MergerState)
    (h : processNeighborDiff st nid d = .ok st') :
    st'.tree_old = st.tree_old ∧ st'.num_diffs = st.num_diffs ∧
      st'.mapdiffs = st.mapdiffs := by
  by_cases hm : d.seq ∈ ledgerGet st.seqs nid
  · rw [processNeighborDiff_mem st nid d hm] at h
    obtain rfl : st = st' := by simpa using h
    exact ⟨rfl, rfl, rfl⟩
  · cases hp : d.payload with
    | none =>
      rw [processNeighborDiff_fail st nid d hm hp] at h
      simp at h
    | some t =>
      rw [processNeighborDiff_new st nid d t hm hp] at h
      obtain rfl : _ = st' := by simpa using h
      exact ⟨rfl, rfl, rfl⟩

theorem processNeighborDiffs_frame (nid : String) (ds : List NeighborDiff)
    (st st' : MergerState) (h : processNeighborDiffs nid st ds = .ok st') :
    st'.tree_old = st.tree_old ∧ st'.num_diffs = st.num_diffs ∧
      st'.mapdiffs = st.mapdiffs := by
  induction ds generalizing st with
  | nil =>
    obtain rfl : st = st' := by simpa [processNeighborDiffs] using h
    exact ⟨rfl, rfl, rfl⟩
  | cons d ds ih =>
    unfold processNeighborDiffs at h
    cases hstep : processNeighborDiff st nid d with
    | ok st1 =>
      rw [hstep] at h
      obtain ⟨a1, a2, a3⟩ := processNeighborDiff_frame st nid d st1 hstep
      obtain ⟨b1, b2, b3⟩ := ih st1 h
      exact ⟨b1.trans a1, b2.trans a2, b3.trans a3⟩
    | error e =>
      rw [hstep] at h
      simp at h

theorem processNeighbors_frame (ns : List Neighbor) (st st' : MergerState)
    (h : processNeighbors st ns = .ok st') :
    st'.tree_old = st.tree_old ∧ st'.num_diffs = st.num_diffs ∧
      st'.mapdiffs = st.mapdiffs := by
  induction ns generalizing st with
  | nil =>
    obtain rfl : st = st' := by simpa [processNeighbors] using h
    exact ⟨rfl, rfl, rfl⟩
  | cons n ns ih =>
    unfold processNeighbors at h
    cases hstep : processNeighborDiffs n.owner st n.octomaps with
    | ok st1 =>
      rw [hstep] at h
      obtain ⟨a1, a2, a3⟩ := processNeighborDiffs_frame n.owner n.octomaps st st1 hstep
      obtain ⟨b1, b2, b3⟩ := ih st1 h
      exact ⟨b1.trans a1, b2.trans a2, b3.trans a3⟩
    | error e =>
      rw [hstep] at h
      simp at h

theorem processNeighborDiff_ledger_mono (st : MergerState) (nid : String)
    (d : NeighborDiff) (st' : MergerState)
    (h : processNeighborDiff st nid d = .ok st') :
    (∀ x ∈ ledgerGet st.seqs nid, x ∈ ledgerGet st'.seqs nid) ∧
      d.seq ∈ ledgerGet st'.seqs nid := by
  by_cases hm : d.seq ∈ ledgerGet st.seqs nid
  · rw [processNeighborDiff_mem st nid d hm] at h
    obtain rfl : st = st' := by simpa using h
    exact ⟨fun x hx => hx, hm⟩
  · cases hp : d.payload with
    | none =>
      rw [processNeighborDiff_fail st nid d hm hp] at h
      simp at h
    | some t =>
      rw [processNeighborDiff_new st nid d t hm hp] at h
      obtain rfl : _ = st' := by simpa using h
      constructor
      · intro x hx
        simp only [ledgerGet_ledgerSet_self]
        exact List.mem_append_left _ hx
      · simp only [ledgerGet_ledgerSet_self]
        exact List.mem_append_right _ (List.mem_singleton.mpr rfl)

theorem processNeighborDiffs_ledger_mono (nid : String)
    (ds : List NeighborDiff) (st st' : MergerState)
    (h : processNeighborDiffs nid st ds = .ok st') :
    ∀ x ∈ ledgerGet st.seqs nid, x ∈ ledgerGet st'.seqs nid := by
  induction ds generalizing st with
  | nil =>
    obtain rfl : st = st' := by simpa [processNeighborDiffs] using h
    exact fun x hx => hx
  | cons d ds ih =>
    unfold processNeighborDiffs at h
    cases hstep : processNeighborDiff st nid d with
    | ok st1 =>
      rw [hstep] at h
      exact fun x hx =>
        ih st1 h x ((processNeighborDiff_ledger_mono st nid d st1 hstep).1 x hx)
    | error e =>
      rw [hstep] at h
      simp at h

theorem processNeighborDiff_ok_of_some (st : MergerState) (nid : String)
    (d : NeighborDiff) (t : OcTree) (hp : d.payload = some t) :
    ∃ st', processNeighborDiff st nid d = .ok st' ∧
      d.seq ∈ ledgerGet st'.seqs nid := by
  by_cases hm : d.seq ∈ ledgerGet st.seqs nid
  · exact ⟨st, processNeighborDiff_mem st nid d hm, hm⟩
  · refine ⟨_, processNeighborDiff_new st nid d t hm hp, ?_⟩
    simp only [ledgerGet_ledgerSet_self]
    exact List.mem_append_right _ (List.mem_singleton.mpr rfl)

/-- A batch whose every message decodes successfully is processed to
completion, and afterwards every sequence of the batch is in the
neighbor's ledger. -/
theorem processNeighborDiffs_all_recorded (nid : String)
    (ds : List NeighborDiff) (st : MergerState)
    (hall : ∀ d ∈ ds, d.payload.isSome) :
    ∃ st', processNeighborDiffs nid st ds = .ok st' ∧
      ∀ d ∈ ds, d.seq ∈ ledgerGet st'.seqs nid := by
  induction ds generalizing st with
  | nil => exact ⟨st, rfl, by simp⟩
  | cons d ds ih =>
    obtain ⟨t, hp⟩ := Option.isSome_iff_exists.mp (hall d (List.mem_cons_self _ _))
    obtain ⟨st1, hstep, hmem⟩ := processNeighborDiff_ok_of_some st nid d t hp
    obtain ⟨st2, hrest, hall2⟩ :=
      ih st1 (fun d' hd' => hall d' (List.mem_cons_of_mem _ hd'))
    refine ⟨st2, ?_, ?_⟩
    · unfold processNeighborDiffs
      rw [hstep]
      exact hrest
    · intro d' hd'
      rcases List.mem_cons.mp hd' with heq | hd2
      · subst heq
        exact processNeighborDiffs_ledger_mono nid ds st1 st2 hrest d'.seq hmem
      · exact hall2 d' hd2

/-- The own-map half of a cycle when the diff is not significant: the
state entering neighbor processing is unchanged and nothing diff-related
is published. -/
theorem merge_subthreshold (type : String) (mt : Int) (st : MergerState)
    (w : OcTree) (ns : List Neighbor) (st2 : MergerState)
    (hthr : ¬ ((build_diff_tree st.tree_old w emptyOt).num_new_nodes : Int) > mt)
    (hok : processNeighbors st ns = .ok st2) :
    merge type mt st (some w) ns = .ok (st2, ⟨none, none, some st2.tree_merged⟩) := by
  unfold merge
  simp only [hthr, if_false]
  rw [hok]

/-! ## Claim theorems -/

/-- Claim C1: after `merge_maps(dest, src, replace=true, ·)` — the
Authoritative policy — every key present in `src` resolves in the
destination to `src`'s occupancy value with provenance flag claimed
(`1`), regardless of the destination's prior content or prior provenance
at that key. -/
theorem authoritative_merge_wins (d : OcTreeStamped) (s : OcTree) (o : Bool)
    (hN : (s.leaves.map Prod.fst).Nodup) (k : Key) (v : LogOdds)
    (hk : otSearch s.leaves k = some v) :
    stSearch (merge_maps d s true o).tree1.leaves k = some (v, 1) := by
  show stSearch
    (s.leaves.foldl (fun acc kv => mergeNode acc true o kv) d.leaves) k = some (v, 1)
  rw [merge_fold_search true o s.leaves hN d.leaves k, hk]
  cases hd : stSearch d.leaves k with
  | none => simp
  | some p =>
    obtain ⟨v0, t0⟩ := p
    simp

theorem authoritative_merge_wins_witness :
    (([((1 : Key), (9 : LogOdds)), (2, 4)].map Prod.fst).Nodup) ∧
    otSearch [((1 : Key), (9 : LogOdds)), (2, 4)] 1 = some 9 ∧
    stSearch (merge_maps ⟨[(1, 7, 0)]⟩ ⟨[(1, 9), (2, 4)], true⟩
      true false).tree1.leaves 1 = some (9, 1) :=
  ⟨by decide, by decide,
    authoritative_merge_wins ⟨[(1, 7, 0)]⟩ ⟨[(1, 9), (2, 4)], true⟩ false
      (by decide) 1 9 (by decide)⟩

/-- Claim C2: `merge_maps(dest, src, replace=false, overwrite=true)` —
the Conditional policy — leaves every destination node whose provenance
flag is claimed (`1`) unchanged even when its key is in `src`, and every
node it does write or create carries the unclaimed flag (`0`). -/
theorem conditional_merge_preserves_claimed (d : OcTreeStamped) (s : OcTree)
    (hN : (s.leaves.map Prod.fst).Nodup) :
    (∀ k v, stSearch d.leaves k = some (v, 1) →
      stSearch (merge_maps d s false true).tree1.leaves k = some (v, 1)) ∧
    (∀ k, stSearch (merge_maps d s false true).tree1.leaves k ≠
        stSearch d.leaves k →
      ∃ v, stSearch (merge_maps d s false true).tree1.leaves k = some (v, 0)) := by
  have hchar : ∀ k, stSearch (merge_maps d s false true).tree1.leaves k =
      match otSearch s.leaves k with
      | none => stSearch d.leaves k
      | some w =>
        match stSearch d.leaves k with
        | none => some (w, if false then 1 else 0)
        | some (v, t) =>
          if false || (true && (t == 0)) then some (w, if false then 1 else 0)
          else some (v, t) :=
    fun k => merge_fold_search false true s.leaves hN d.leaves k
  constructor
  · intro k v hk
    rw [hchar k, hk]
    cases hs : otSearch s.leaves k with
    | none => simp
    | some w => simp
  · intro k hne
    rw [hchar k] at hne ⊢
    cases hs : otSearch s.leaves k with
    | none =>
      rw [hs] at hne
      simp at hne
    | some w =>
      rw [hs] at hne
      cases hd2 : stSearch d.leaves k with
      | none => exact ⟨w, rfl⟩
      | some p =>
        obtain ⟨v0, t0⟩ := p
        rw [hd2] at hne
        by_cases ht : t0 = 0
        · subst ht
          exact ⟨w, rfl⟩
        · have hb : (t0 == 0) = false := by
            simpa using ht
          simp [hb] at hne

theorem conditional_merge_preserves_claimed_witness :
    (([((1 : Key), (9 : LogOdds))].map Prod.fst).Nodup) ∧
    stSearch [((1 : Key), (7 : LogOdds), (1 : Nat))] 1 = some (7, 1) ∧
    stSearch (merge_maps ⟨[(1, 7, 1)]⟩ ⟨[(1, 9)], true⟩
      false true).tree1.leaves 1 = some (7, 1) :=
  ⟨by decide, by decide,
    (conditional_merge_preserves_claimed ⟨[(1, 7, 1)]⟩ ⟨[(1, 9)], true⟩
      (by decide)).1 1 7 (by decide)⟩

/-- Claim C3: `build_diff_tree(baseline, current, empty)` produces a diff
tree whose keys are exactly the leaf keys of `current` absent from
`baseline` or carrying a different occupancy value there (compared
exactly), each recorded with `current`'s value; the returned count is the
number of keys absent from `baseline`; diffing a tree against itself
yields an empty diff and a zero count. -/
theorem build_diff_tree_correct (t1 t2 : OcTree)
    (hN : (t2.leaves.map Prod.fst).Nodup) :
    (∀ k, otSearch (build_diff_tree t1 t2 emptyOt).tree_diff.leaves k =
      match otSearch t2.leaves k with
      | some v => if otSearch t1.leaves k = some v then none else some v
      | none => none) ∧
    (build_diff_tree t1 t2 emptyOt).num_new_nodes =
      (t2.leaves.filter (fun kv => (otSearch t1.leaves kv.1).isNone)).length ∧
    (build_diff_tree t2 t2 emptyOt).tree_diff.leaves = [] ∧
    (build_diff_tree t2 t2 emptyOt).num_new_nodes = 0 := by
  have hid : t2.leaves.foldl (diffStep t2.leaves) ([], 0) = ([], 0) :=
    diff_fold_id t2.leaves t2.leaves
      (fun kv hkv => otSearch_of_mem t2.leaves kv.1 kv.2 hN (by simpa using hkv)) 0
  refine ⟨fun k => ?_, ?_, ?_, ?_⟩
  · show otSearch (t2.leaves.foldl (diffStep t1.leaves) ([], 0)).1 k = _
    exact diff_fold_search t1.leaves t2.leaves hN [] 0 k
  · show (t2.leaves.foldl (diffStep t1.leaves) ([], 0)).2 = _
    rw [diff_fold_count t1.leaves t2.leaves [] 0]
    simp
  · show (t2.leaves.foldl (diffStep t2.leaves) ([], 0)).1 = []
    rw [hid]
  · show (t2.leaves.foldl (diffStep t2.leaves) ([], 0)).2 = 0
    rw [hid]

theorem build_diff_tree_correct_witness :
    (([((1 : Key), (6 : LogOdds)), (2, 7), (3, 5)].map Prod.fst).Nodup) ∧
    (build_diff_tree ⟨[(1, 5)], false⟩ ⟨[(1, 6), (2, 7), (3, 5)], false⟩
      emptyOt).num_new_nodes = 2 := by
  refine ⟨by decide, ?_⟩
  rw [(build_diff_tree_correct ⟨[(1, 5)], false⟩ ⟨[(1, 6), (2, 7), (3, 5)], false⟩
    (by decide)).2.1]
  decide

/-- Claim C9: under every combination of the `replace` and `overwrite`
flags, `merge_maps` never removes a node from the destination: every key
that resolves in the destination before the call still resolves after
it. -/
theorem merge_maps_never_removes_nodes (d : OcTreeStamped) (s : OcTree)
    (replace overwrite : Bool) (k : Key)
    (h : (stSearch d.leaves k).isSome) :
    (stSearch (merge_maps d s replace overwrite).tree1.leaves k).isSome := by
  show (stSearch
    (s.leaves.foldl (fun acc kv => mergeNode acc replace overwrite kv) d.leaves)
      k).isSome = true
  exact merge_fold_isSome replace overwrite s.leaves d.leaves k h

theorem merge_maps_never_removes_nodes_witness :
    ((stSearch [((3 : Key), (2 : LogOdds), (1 : Nat))] 3).isSome = true) ∧
    ((stSearch (merge_maps ⟨[(3, 2, 1)]⟩ ⟨[(3, 5)], false⟩
      true true).tree1.leaves 3).isSome = true) :=
  ⟨by decide,
    merge_maps_never_removes_nodes ⟨[(3, 2, 1)]⟩ ⟨[(3, 5)], false⟩ true true 3
      (by decide)⟩

/-- Claim C4: a sequence already recorded for a neighbor is skipped with
the state unchanged (at-most-once per neighbor-sequence pair); an
unrecorded, successfully decoding diff is recorded and merged with
`replace=false` and `overwrite` true iff its sequence is at least every
sequence recorded for that neighbor before this one (vacuously true on
first contact); and in the claimed scenario — one neighbor sending
sequences 3, 1, 2 and then 1 again, against a merged map holding an
unclaimed node — only sequence 3 overwrites, and each sequence is
recorded exactly once. -/
theorem neighbor_seq_dedup_policy :
    (∀ (st : MergerState) (nid : String) (d : NeighborDiff),
      d.seq ∈ ledgerGet st.seqs nid → processNeighborDiff st nid d = .ok st) ∧
    (∀ (st : MergerState) (nid : String) (d : NeighborDiff) (t : OcTree),
      d.seq ∉ ledgerGet st.seqs nid → d.payload = some t →
      processNeighborDiff st nid d = .ok { st with
        seqs := ledgerSet st.seqs nid (ledgerGet st.seqs nid ++ [d.seq])
        tree_merged := (merge_maps st.tree_merged t false
          (decide (∀ s ∈ ledgerGet st.seqs nid, s ≤ d.seq))).tree1 }) ∧
    (processNeighborDiffs "A" ⟨⟨[(1, 10, 0)]⟩, ⟨[], true⟩, 0, [], []⟩
      [⟨3, some ⟨[(1, 33)], true⟩⟩, ⟨1, some ⟨[(1, 11)], true⟩⟩,
       ⟨2, some ⟨[(1, 22)], true⟩⟩, ⟨1, some ⟨[(1, 99)], true⟩⟩] =
      .ok ⟨⟨[(1, 33, 0)]⟩, ⟨[], true⟩, 0, [], [("A", [3, 1, 2])]⟩) := by
  refine ⟨processNeighborDiff_mem, ?_, by rfl⟩
  intro st nid d t hm hp
  rw [processNeighborDiff_new st nid d t hm hp, overwrite_flag_eq]

theorem neighbor_seq_dedup_policy_witness :
    ((4 : Nat) ∈ ledgerGet [("A", [4])] "A") ∧
    processNeighborDiff ⟨⟨[]⟩, ⟨[], true⟩, 0, [], [("A", [4])]⟩ "A" ⟨4, none⟩ =
      .ok ⟨⟨[]⟩, ⟨[], true⟩, 0, [], [("A", [4])]⟩ :=
  ⟨by decide,
    neighbor_seq_dedup_policy.1 ⟨⟨[]⟩, ⟨[], true⟩, 0, [], [("A", [4])]⟩ "A"
      ⟨4, none⟩ (by decide)⟩

/-- Claim C5, evaluated at the failing input: a decode failure of one
neighbor diff is not local to that item — the `NULL` tree reaches
`merge_maps`, which dereferences it, so the rest of that neighbor's
batch (sequence 2) and the other neighbor ("B") are never processed and
the merged map is neither pruned nor published.  The crash state shows
only the failing sequence recorded. -/
theorem neighbor_decode_failure_kills_cycle :
    merge "robot" 50 ⟨⟨[]⟩, ⟨[], true⟩, 0, [], []⟩ (some ⟨[], true⟩)
      [⟨"A", [⟨1, none⟩, ⟨2, some ⟨[], true⟩⟩]⟩,
       ⟨"B", [⟨1, some ⟨[], true⟩⟩]⟩] =
      .error ⟨⟨[]⟩, ⟨[], true⟩, 0, [], [("A", [1])]⟩ := by
  rfl

/-- Claim C6, evaluated at the failing input: with the own-map decode
failed (`none`), a `type = "robot"` agent returns early — no merge of
anything, nothing published — while a `type = "base"` agent falls
through into `build_diff_tree` with the `NULL` tree and the cycle dies
before any neighbor data is used. -/
theorem own_decode_failure_by_role :
    (merge "robot" 50 ⟨⟨[]⟩, ⟨[], true⟩, 0, [], []⟩ none
      [⟨"A", [⟨1, some ⟨[(1, 5)], true⟩⟩]⟩] =
      .ok (⟨⟨[]⟩, ⟨[], true⟩, 0, [], []⟩, ⟨none, none, none⟩)) ∧
    (merge "base" 50 ⟨⟨[]⟩, ⟨[], true⟩, 0, [], []⟩ none
      [⟨"A", [⟨1, some ⟨[(1, 5)], true⟩⟩]⟩] =
      .error ⟨⟨[]⟩, ⟨[], true⟩, 0, [], []⟩) :=
  ⟨rfl, rfl⟩

/-- Claim C7: in a cycle whose own-map diff is not strictly above the
threshold, nothing diff-related is published, the diff count and the
outbound array are untouched, and the baseline is unchanged; composing a
second sub-threshold cycle keeps the baseline equal to the original
snapshot, so both diffs are computed against that same stale
baseline. -/
theorem subthreshold_cycle_publishes_nothing (type : String) (mt : Int)
    (st : MergerState) (w : OcTree) (ns : List Neighbor) (st2 : MergerState)
    (hthr : ¬ ((build_diff_tree st.tree_old w emptyOt).num_new_nodes : Int) > mt)
    (hok : processNeighbors st ns = .ok st2) :
    merge type mt st (some w) ns = .ok (st2, ⟨none, none, some st2.tree_merged⟩) ∧
    st2.tree_old = st.tree_old ∧ st2.num_diffs = st.num_diffs ∧
    st2.mapdiffs = st.mapdiffs ∧
    (∀ (w2 : OcTree) (ns2 : List Neighbor) (st4 : MergerState),
      ¬ ((build_diff_tree st2.tree_old w2 emptyOt).num_new_nodes : Int) > mt →
      processNeighbors st2 ns2 = .ok st4 →
      merge type mt st2 (some w2) ns2 =
        .ok (st4, ⟨none, none, some st4.tree_merged⟩) ∧
      st4.tree_old = st.tree_old ∧ st4.num_diffs = st.num_diffs ∧
      st4.mapdiffs = st.mapdiffs) := by
  obtain ⟨f1, f2, f3⟩ := processNeighbors_frame ns st st2 hok
  refine ⟨merge_subthreshold type mt st w ns st2 hthr hok, f1, f2, f3, ?_⟩
  intro w2 ns2 st4 hthr2 hok2
  obtain ⟨g1, g2, g3⟩ := processNeighbors_frame ns2 st2 st4 hok2
  exact ⟨merge_subthreshold type mt st2 w2 ns2 st4 hthr2 hok2,
    g1.trans f1, g2.trans f2, g3.trans f3⟩

theorem subthreshold_cycle_publishes_nothing_witness :
    (¬ ((build_diff_tree ⟨[], true⟩ ⟨[], true⟩ emptyOt).num_new_nodes : Int) > 50) ∧
    processNeighbors ⟨⟨[]⟩, ⟨[], true⟩, 0, [], []⟩ [] =
      .ok ⟨⟨[]⟩, ⟨[], true⟩, 0, [], []⟩ ∧
    merge "robot" 50 ⟨⟨[]⟩, ⟨[], true⟩, 0, [], []⟩ (some ⟨[], true⟩) [] =
      .ok (⟨⟨[]⟩, ⟨[], true⟩, 0, [], []⟩, ⟨none, none, some ⟨[]⟩⟩) :=
  ⟨by decide, rfl,
    (subthreshold_cycle_publishes_nothing "robot" 50
      ⟨⟨[]⟩, ⟨[], true⟩, 0, [], []⟩ ⟨[], true⟩ []
      ⟨⟨[]⟩, ⟨[], true⟩, 0, [], []⟩ (by decide) rfl).1⟩

/-- Claim C8 counterexample: `build_diff_tree` does modify the current
tree passed in — the post-call current tree is the fully expanded one.
The input models a pruned tree (a coarse node standing for eight sibling
voxels of equal occupancy), which `tree2->expand()` splits back into
eight leaf nodes and never re-prunes. -/
theorem build_diff_tree_expands_current :
    (build_diff_tree emptyOt
      ⟨[(0, 5), (1, 5), (2, 5), (3, 5), (4, 5), (5, 5), (6, 5), (7, 5)], false⟩
      emptyOt).tree2 ≠
    ⟨[(0, 5), (1, 5), (2, 5), (3, 5), (4, 5), (5, 5), (6, 5), (7, 5)], false⟩ := by
  decide

/-- Claim C8 (amended): `build_diff_tree` never mutates the baseline
tree, and beyond building the returned diff tree its only effect is to
fully expand the current tree in place; the expansion leaves the
occupancy value observed at every leaf key of the current tree
unchanged. -/
theorem build_diff_tree_frame (t1 t2 td : OcTree) :
    (build_diff_tree t1 t2 td).tree1 = t1 ∧
    (build_diff_tree t1 t2 td).tree2 = expand t2 ∧
    (build_diff_tree t1 t2 td).tree2.leaves = t2.leaves :=
  ⟨rfl, rfl, rfl⟩

/-- Claim C10 counterexample: sequences are not recorded "regardless of
whether the decode succeeded" — a decode failure kills the batch, so the
later sequence 6 is never recorded (the crash state holds only the
failing sequence 5). -/
theorem decode_failure_drops_later_seqs :
    processNeighborDiffs "A" ⟨⟨[]⟩, ⟨[], true⟩, 0, [], []⟩
      [⟨5, none⟩, ⟨6, some ⟨[], true⟩⟩] =
      .error ⟨⟨[]⟩, ⟨[], true⟩, 0, [], [("A", [5])]⟩ ∧
    (6 : Nat) ∉ ledgerGet [("A", [5])] "A" :=
  ⟨rfl, by decide⟩

/-- Claim C10 (amended): a previously unapplied sequence is appended to
the neighbor's ledger before its diff is decoded or merged — on a decode
failure the crash-point state already records it, with the merged map
untouched; when every diff of a batch decodes successfully the batch
completes and every sequence in it ends up recorded; and a sequence
already recorded is skipped with the state unchanged, so it is never
reprocessed in a later cycle.  (A decode failure aborts the batch, so
sequences of later items are not recorded; see the counterexample.) -/
theorem sequence_recorded_before_decode :
    (∀ (st : MergerState) (nid : String) (d : NeighborDiff),
      d.seq ∉ ledgerGet st.seqs nid → d.payload = none →
      processNeighborDiff st nid d = .error { st with
        seqs := ledgerSet st.seqs nid (ledgerGet st.seqs nid ++ [d.seq]) }) ∧
    (∀ (nid : String) (ds : List NeighborDiff) (st : MergerState),
      (∀ d ∈ ds, d.payload.isSome) →
      ∃ st', processNeighborDiffs nid st ds = .ok st' ∧
        ∀ d ∈ ds, d.seq ∈ ledgerGet st'.seqs nid) ∧
    (∀ (st : MergerState) (nid : String) (d : NeighborDiff),
      d.seq ∈ ledgerGet st.seqs nid → processNeighborDiff st nid d = .ok st) :=
  ⟨processNeighborDiff_fail, processNeighborDiffs_all_recorded,
    processNeighborDiff_mem⟩

theorem sequence_recorded_before_decode_witness :
    ((5 : Nat) ∉ ledgerGet ([] : List (String × List Nat)) "A") ∧
    processNeighborDiff ⟨⟨[]⟩, ⟨[], true⟩, 0, [], []⟩ "A" ⟨5, none⟩ =
      .error ⟨⟨[]⟩, ⟨[], true⟩, 0, [], [("A", [5])]⟩ :=
  ⟨by decide,
    sequence_recorded_before_decode.1 ⟨⟨[]⟩, ⟨[], true⟩, 0, [], []⟩ "A"
      ⟨5, none⟩ (by decide) rfl⟩

end OctomapMerger
